import Mathlib

/-!
Verification of the dictation-editor core (src/App.tsx, src/types.ts).

The document buffer, the cursor-aware edit operations, the speech-session
controller callbacks and the playback-progress mapper are embedded as pure
Lean functions over a `Document` record whose text is a list of characters
(one entry per UTF-16 code unit position of the JS string; all concrete
inputs in this development are in the Basic Latin range, where the two views
coincide).  Character classes and case mappings follow the JS semantics on
that range: `jsWhitespace` is the `\s` / `trim` whitespace class, and
`Char.toUpper` / `Char.toLower` agree with the JS locale-independent
`toUpperCase` / `toLowerCase` on Basic Latin.
-/

namespace Dictado

/-- The whitespace class used by the JS regexes `/\s$/` and by
`String.prototype.trim` / `trimEnd`: ASCII whitespace plus the Unicode
space separators, line separators and the BOM. -/
def jsWhitespace (c : Char) : Bool :=
  c = ' ' || c = '\t' || c = '\n' || c = '\r' || c = '\x0b' || c = '\x0c' ||
  c = '\u00A0' || c = '\u1680' ||
  ('\u2000' ≤ c && c ≤ '\u200A') ||
  c = '\u2028' || c = '\u2029' || c = '\u202F' || c = '\u205F' ||
  c = '\u3000' || c = '\uFEFF'

/-- `String.prototype.trimEnd`: drop trailing whitespace. -/
def trimEnd (l : List Char) : List Char :=
  (l.reverse.dropWhile jsWhitespace).reverse

/-- `String.prototype.trim`: drop leading and trailing whitespace. -/
def jsTrim (l : List Char) : List Char :=
  trimEnd (l.dropWhile jsWhitespace)

/-- `String.prototype.lastIndexOf` specialised to a single character:
the greatest index holding `c`, if any. -/
def lastIdxOf (c : Char) : List Char → Option Nat
  | [] => none
  | x :: xs =>
    match lastIdxOf c xs with
    | some i => some (i + 1)
    | none => if x = c then some 0 else none

/-- The textarea state: `value`, `selectionStart`, `selectionEnd`. -/
structure Document where
  text : List Char
  selectionStart : Nat
  selectionEnd : Nat
deriving DecidableEq, Repr

/-- The DOM invariant on a textarea selection:
`0 ≤ selectionStart ≤ selectionEnd ≤ length(text)`. -/
def Document.Valid (d : Document) : Prop :=
  d.selectionStart ≤ d.selectionEnd ∧ d.selectionEnd ≤ d.text.length

instance (d : Document) : Decidable d.Valid := by
  unfold Document.Valid; infer_instance

/-- `insertTextAtCursor` (src/App.tsx:128): splice the string into the value
at `selectionStart..selectionEnd` and collapse the caret after the inserted
text.  The deferred caret/scroll placement of the source is the visual half
of the same assignment and carries no further data state. -/
def insertTextAtCursor (d : Document) (textToInsert : List Char) : Document :=
  { text := d.text.take d.selectionStart ++ textToInsert ++ d.text.drop d.selectionEnd
    selectionStart := d.selectionStart + textToInsert.length
    selectionEnd := d.selectionStart + textToInsert.length }

/-- The two deletion modes of `deleteAtCursor` (the source string literals
are CHAR and WORD). -/
inductive DeleteMode where
  | char
  | word
deriving DecidableEq, Repr

/-- `deleteAtCursor` (src/App.tsx:160): a non-collapsed selection is removed
whole; a collapsed caret deletes one character (CHAR) or back to the word
boundary `lastIndexOf(' ') + 1` of the trimmed prefix (WORD), with the
source's fallback to a single character when the computed count is zero. -/
def deleteAtCursor (d : Document) (mode : DeleteMode) : Document :=
  let start := d.selectionStart
  let stop := d.selectionEnd
  let currentText := d.text
  if start ≠ stop then
    { text := currentText.take start ++ currentText.drop stop
      selectionStart := start, selectionEnd := start }
  else if start = 0 then d
  else
    let deleteCount :=
      match mode with
      | .char => 1
      | .word =>
        let textBefore := currentText.take start
        let trimmedBefore := trimEnd textBefore
        let targetIndex :=
          match lastIdxOf ' ' trimmedBefore with
          | none => 0
          | some i => i + 1
        let dc := start - targetIndex
        if dc = 0 then 1 else dc
    { text := currentText.take (start - deleteCount) ++ currentText.drop stop
      selectionStart := start - deleteCount, selectionEnd := start - deleteCount }

/-- The character class of the word-boundary regex `/[\s\p{P}]/u` in
`toggleCase` (src/App.tsx:213): whitespace or Unicode punctuation.  The
punctuation part is spelled out on the Basic Latin fragment of the `\p{P}`
category (the `$ + < = > ^ | ~` symbols are category S, not P, and are
correctly excluded); characters outside Basic Latin other than the
whitespace class are treated as word characters, which agrees with the
regex on every input appearing in this development. -/
def isBoundaryChar (c : Char) : Bool :=
  jsWhitespace c ||
  c = '!' || c = '"' || c = '#' || c = '%' || c = '&' || c = '\x27' ||
  c = '(' || c = ')' || c = '*' || c = ',' || c = '-' || c = '.' ||
  c = '/' || c = ':' || c = ';' || c = '?' || c = '@' || c = '[' ||
  c = '\\' || c = ']' || c = '_' || c = '{' || c = '}'

/-- The left expansion loop of `toggleCase` (src/App.tsx:213): decrement
`targetStart` while the character before it is neither whitespace nor
punctuation. -/
def scanLeft (t : List Char) : Nat → Nat
  | 0 => 0
  | n + 1 =>
    match t.get? n with
    | some c => if isBoundaryChar c then n + 1 else scanLeft t n
    | none => scanLeft t n

/-- Fuel-driven right expansion loop of `toggleCase` (src/App.tsx:216):
increment `targetEnd` while the character at it is neither whitespace nor
punctuation.  With fuel `t.length - n` this is the source's while loop. -/
def scanRightAux (t : List Char) : Nat → Nat → Nat
  | 0, n => n
  | fuel + 1, n =>
    match t.get? n with
    | some c => if isBoundaryChar c then n else scanRightAux t fuel (n + 1)
    | none => n

/-- The right expansion loop of `toggleCase`. -/
def scanRight (t : List Char) (n : Nat) : Nat :=
  scanRightAux t (t.length - n) n

/-- `toggleCase` (src/App.tsx:200): expand a collapsed caret to the
enclosing word, classify the selection (all-lower / title / other) and
rotate its case, leaving the whole replaced range selected. -/
def toggleCase (d : Document) : Document :=
  let start := d.selectionStart
  let stop := d.selectionEnd
  let textStr := d.text
  let targetStart := if start = stop then scanLeft textStr start else start
  let targetEnd := if start = stop then scanRight textStr stop else stop
  if targetStart = targetEnd then d
  else
    let selectedText := (textStr.drop targetStart).take (targetEnd - targetStart)
    if selectedText = [] then d
    else
      let isUpper := selectedText = selectedText.map Char.toUpper
      let isLower := selectedText = selectedText.map Char.toLower
      let firstChar := selectedText.headI
      let rest := selectedText.tail
      let isTitle := firstChar = firstChar.toUpper ∧ rest = rest.map Char.toLower ∧ ¬isUpper
      let newTextChunk :=
        if isLower then firstChar.toUpper :: rest.map Char.toLower
        else if isTitle then selectedText.map Char.toUpper
        else selectedText.map Char.toLower
      { text := textStr.take targetStart ++ newTextChunk ++ textStr.drop targetEnd
        selectionStart := targetStart
        selectionEnd := targetStart + newTextChunk.length }

/-- The case rotation of the selection classification in `toggleCase`
(src/App.tsx:226..240), phrased on the selected text alone: an all-lower
selection becomes TitleCase, a TitleCase (not all-upper) selection becomes
all-upper, anything else becomes all-lower. -/
def rotateCase (sel : List Char) : List Char :=
  if sel = sel.map Char.toLower then sel.headI.toUpper :: sel.tail.map Char.toLower
  else if sel.headI = sel.headI.toUpper ∧ sel.tail = sel.tail.map Char.toLower ∧
      ¬sel = sel.map Char.toUpper then sel.map Char.toUpper
  else sel.map Char.toLower

/-- Whether the trimmed processed chunk begins with one of the
no-space-before punctuation marks, the test `/^[.,;:!?]/` of
src/App.tsx:55. -/
def startsWithNoSpacePunct (l : List Char) : Bool :=
  match l with
  | [] => false
  | c :: _ => c = '.' || c = ',' || c = ';' || c = ':' || c = '!' || c = '?'

/-- Whether the document text ends in whitespace, the test `/\s$/` of
src/App.tsx:53. -/
def endsWithWhitespace (l : List Char) : Bool :=
  match l.getLast? with
  | some c => jsWhitespace c
  | none => false

/-- The separator computation of `recognition.onresult`
(src/App.tsx:52..58): a single space unless the document is empty, already
ends in whitespace, or the trimmed processed chunk starts with no-space
punctuation. -/
def computeSeparator (currentText processedChunk : List Char) : List Char :=
  if currentText.length > 0 ∧ ¬endsWithWhitespace currentText ∧
      ¬startsWithNoSpacePunct (jsTrim processedChunk) then
    [' ']
  else []

/-- The insertion a processed chunk triggers (src/App.tsx:52..60): separator
plus trimmed chunk, spliced in at the caret. -/
def insertChunk (d : Document) (processedChunk : List Char) : Document :=
  insertTextAtCursor d (computeSeparator d.text processedChunk ++ jsTrim processedChunk)

/-- The recognition languages of src/types.ts (`Language` enum). -/
inductive Language where
  | es
  | en
  | fr
deriving DecidableEq, Repr

/-- Modelled from the spec: `processTextChunk` lives in
src/services/textProcessing.ts, which is not part of the sources; following
§4.2, it trims surrounding whitespace and capitalizes the first letter when
the context is empty or its last non-whitespace character is a sentence
terminator, identically for every language. -/
def processTextChunk (rawChunk contextText : List Char) (_lang : Language) : List Char :=
  let t := jsTrim rawChunk
  let ctxTrimmed := trimEnd contextText
  let capitalize :=
    match ctxTrimmed.getLast? with
    | none => true
    | some c => c = '.' || c = '!' || c = '?'
  if capitalize then
    match t with
    | [] => []
    | c :: cs => c.toUpper :: cs
  else t

/-- `recognition.onresult` (src/App.tsx:33): the document update performed
for one event, given the concatenation of the finalized transcripts of the
batch.  An empty concatenation is falsy and skips the handler body. -/
def onResult (d : Document) (finalTranscriptChunk : List Char) (lang : Language) :
    Document :=
  if finalTranscriptChunk = [] then d
  else
    let processedChunk := processTextChunk finalTranscriptChunk d.text lang
    insertChunk d processedChunk

/-- The playback-progress mapper of `handlePlay` (src/App.tsx:305):
`Math.min(Math.floor(textLength * percentage), textLength)`. -/
def mapProgress (fraction : ℚ) (textLength : ℕ) : ℤ :=
  min ⌊(textLength : ℚ) * fraction⌋ (textLength : ℤ)

/-- The `audioState` values of src/App.tsx:12. -/
inductive AudioState where
  | idle
  | loading
  | playing
deriving DecidableEq, Repr

/-- The mutable state of the App component relevant to the session and
playback claims: the textarea document, the user-intent ref
`shouldListenRef`, the `isListening` flag (true models SessionState Active),
the audio state, and whether an uncancelled synthesis session exists
(`playbackActive` abstracts the pending `speakText` utterance whose stop
handle has not been invoked). -/
structure AppState where
  doc : Document
  shouldListen : Bool
  isListening : Bool
  audioState : AudioState
  playbackActive : Bool
deriving DecidableEq, Repr

/-- The initial component state (src/App.tsx:9..19). -/
def initState : AppState :=
  { doc := { text := [], selectionStart := 0, selectionEnd := 0 }
    shouldListen := false
    isListening := false
    audioState := .idle
    playbackActive := false }

/-- `handleStopAudio` (src/App.tsx:332): invoke and clear the stored stop
handle and set the audio state to idle. -/
def handleStopAudio (s : AppState) : AppState :=
  { s with audioState := .idle, playbackActive := false }

/-- `recognition.onend` (src/App.tsx:73): restart while intent holds;
`startThrows` tells whether the `recognition.start()` call inside the try
block throws.  A throw clears the intent and the listening flag; otherwise
the state is untouched (the engine is running again).  Without intent the
listening flag is cleared and no start is attempted. -/
def onEnd (startThrows : Bool) (s : AppState) : AppState :=
  if s.shouldListen then
    if startThrows then { s with isListening := false, shouldListen := false }
    else s
  else { s with isListening := false }

/-- Whether `recognition.onend` invokes `recognition.start()`: exactly when
the intent ref is still set. -/
def onEndStarts (s : AppState) : Bool :=
  s.shouldListen

/-- Run a sequence of engine `end` events (each tagged with whether the
restart call would throw), counting how many times `start()` is invoked. -/
def runEnds : List Bool → AppState → AppState × Nat
  | [], s => (s, 0)
  | b :: bs, s =>
    let invoked := if onEndStarts s then 1 else 0
    let r := runEnds bs (onEnd b s)
    (r.1, invoked + r.2)

/-- `recognition.onerror` (src/App.tsx:64): the permission / service-denial
kinds clear the intent and the listening flag; every other kind is
swallowed. -/
def onError (kind : String) (s : AppState) : AppState :=
  if kind = "not-allowed" ∨ kind = "service-not-allowed" then
    { s with isListening := false, shouldListen := false }
  else s

/-- `toggleListening` (src/App.tsx:99): with intent set, clear it, stop the
engine and clear the listening flag; otherwise stop any playback, set the
intent and start the engine (`startThrows` tells whether that call throws;
on a throw both flags are cleared again). -/
def toggleListening (startThrows : Bool) (s : AppState) : AppState :=
  if s.shouldListen then
    { s with shouldListen := false, isListening := false }
  else
    let s1 := if s.audioState ≠ .idle then handleStopAudio s else s
    if startThrows then { s1 with shouldListen := false, isListening := false }
    else { s1 with shouldListen := true, isListening := true }

/-- `handlePlay` (src/App.tsx:288): a blank document is a no-op; otherwise
stop listening if intended, enter the loading state and hand the text to the
synthesis capability (modelled by `playbackActive := true`; `speakText`
itself lives in src/services/geminiService.ts, outside the sources, and per
the spec delivers progress callbacks only until its stop handle is
invoked). -/
def handlePlay (s : AppState) : AppState :=
  if jsTrim s.doc.text = [] then s
  else
    let s1 := if s.shouldListen then toggleListening false s else s
    { s1 with audioState := .loading, playbackActive := true }

/-- A progress callback of the synthesis capability (src/App.tsx:300..321):
only an uncancelled session reports progress; it switches the audio state to
playing (the caret move it also performs touches only the selection, which
the mutual-exclusion invariant does not read). -/
def onProgress (s : AppState) : AppState :=
  if s.playbackActive then { s with audioState := .playing } else s

/-- The completion callback of `speakText` (src/App.tsx:323): only an
uncancelled session completes; it returns the audio state to idle and clears
the stop handle. -/
def onComplete (s : AppState) : AppState :=
  if s.playbackActive then { s with audioState := .idle, playbackActive := false }
  else s

/-- The key actions of `handleKeyboardPress` (src/App.tsx:253): CHAR, ENTER
and SPACE insert their key string; the rest dispatch to the edit
operations. -/
inductive KeyAction where
  | insert (key : List Char)
  | backspace
  | deleteWord
  | togCase
deriving DecidableEq, Repr

/-- The document edit a key press performs (src/App.tsx:257..265). -/
def applyKey (k : KeyAction) (d : Document) : Document :=
  match k with
  | .insert key => insertTextAtCursor d key
  | .backspace => deleteAtCursor d .char
  | .deleteWord => deleteAtCursor d .word
  | .togCase => toggleCase d

/-- `handleKeyboardPress` (src/App.tsx:253): stop audio if not idle, then
perform the edit. -/
def handleKeyboardPress (k : KeyAction) (s : AppState) : AppState :=
  let s1 := if s.audioState ≠ .idle then handleStopAudio s else s
  { s1 with doc := applyKey k s1.doc }

/-- The textarea `onChange` handler (src/App.tsx:360): adopt the new value
typed through the system keyboard and stop audio if not idle. -/
def handleEdit (d : Document) (s : AppState) : AppState :=
  let s1 := if s.audioState ≠ .idle then handleStopAudio s else s
  { s1 with doc := d }

/-- `handleClear` (src/App.tsx:279): clear the text and stop audio if not
idle. -/
def handleClear (s : AppState) : AppState :=
  let s1 := { s with doc := { text := [], selectionStart := 0, selectionEnd := 0 } }
  if s1.audioState ≠ .idle then handleStopAudio s1 else s1

/-- The events the App component reacts to.  `toggle` and `endEvt` carry
whether the engine start call they may perform throws; `result` carries the
finalized transcript of a recognition result batch; `edit` carries the new
textarea state of a direct edit. -/
inductive Ev where
  | toggle (startThrows : Bool)
  | endEvt (startThrows : Bool)
  | errEvt (kind : String)
  | result (chunk : List Char) (lang : Language)
  | play
  | progress
  | complete
  | stopAudio
  | keyPress (k : KeyAction)
  | edit (d : Document)
  | clear

/-- One dispatch of the single-threaded event loop (spec §5): each callback
runs to completion before the next one. -/
def step (s : AppState) : Ev → AppState
  | .toggle b => toggleListening b s
  | .endEvt b => onEnd b s
  | .errEvt kind => onError kind s
  | .result chunk lang => { s with doc := onResult s.doc chunk lang }
  | .play => handlePlay s
  | .progress => onProgress s
  | .complete => onComplete s
  | .stopAudio => handleStopAudio s
  | .keyPress k => handleKeyboardPress k s
  | .edit d => handleEdit d s
  | .clear => handleClear s

/-- The states the component can reach from its initial state through event
dispatches. -/
inductive Reachable : AppState → Prop
  | init : Reachable initState
  | next {s : AppState} (e : Ev) : Reachable s → Reachable (step s e)

/-- The mutual-exclusion invariant between the listening session and the
playback subsystem: an uncancelled playback session excludes listening
intent and the Active session state, the playing audio state only occurs
with an uncancelled session (which is then not idle), and the Active state
only occurs with intent set. -/
def SessionAudioInv (s : AppState) : Prop :=
  (s.playbackActive = true → s.shouldListen = false ∧ s.isListening = false)
  ∧ (s.audioState = .playing → s.playbackActive = true)
  ∧ (s.isListening = true → s.shouldListen = true)
  ∧ (s.playbackActive = true → s.audioState ≠ .idle)

/-- The WORD-mode deletion boundary of `deleteAtCursor` (src/App.tsx:185):
one past the last space of the whitespace-trimmed prefix before the caret,
or 0 when that prefix holds no space. -/
def wordDeleteBoundary (t : List Char) (p : Nat) : Nat :=
  match lastIdxOf ' ' (trimEnd (t.take p)) with
  | none => 0
  | some i => i + 1

/-! ### Supporting lemmas -/

lemma length_dropWhile_le (p : Char → Bool) (l : List Char) :
    (l.dropWhile p).length ≤ l.length := by
  induction l with
  | nil => simp
  | cons x xs ih =>
    by_cases h : p x
    · simp only [List.dropWhile_cons, h, if_true, List.length_cons]; omega
    · simp [List.dropWhile_cons, h]

lemma length_trimEnd_le (l : List Char) : (trimEnd l).length ≤ l.length := by
  unfold trimEnd
  calc (l.reverse.dropWhile jsWhitespace).reverse.length
      = (l.reverse.dropWhile jsWhitespace).length := List.length_reverse _
    _ ≤ l.reverse.length := length_dropWhile_le _ _
    _ = l.length := List.length_reverse _

lemma getLast?_trimEnd_not_ws {l : List Char} {c : Char}
    (h : (trimEnd l).getLast? = some c) : jsWhitespace c = false := by
  unfold trimEnd at h
  rw [List.getLast?_reverse] at h
  have hd := List.head?_dropWhile_not jsWhitespace l.reverse
  rw [h] at hd
  exact hd

lemma lastIdxOf_spec {c : Char} {l : List Char} {i : Nat}
    (h : lastIdxOf c l = some i) : i < l.length ∧ l[i]? = some c := by
  induction l generalizing i with
  | nil => simp [lastIdxOf] at h
  | cons x xs ih =>
    unfold lastIdxOf at h
    cases hx : lastIdxOf c xs with
    | some j =>
      rw [hx] at h
      obtain ⟨hj, hg⟩ := ih hx
      cases h
      exact ⟨by simpa using Nat.succ_lt_succ hj, by simpa using hg⟩
    | none =>
      rw [hx] at h
      by_cases he : x = c
      · rw [if_pos he] at h
        cases h
        exact ⟨by simp, by simp [he]⟩
      · rw [if_neg he] at h
        cases h

lemma lastIdxOf_eq_none {c : Char} {l : List Char} (h : c ∉ l) :
    lastIdxOf c l = none := by
  induction l with
  | nil => rfl
  | cons x xs ih =>
    have hx : c ∉ xs := fun hm => h (List.mem_cons_of_mem _ hm)
    have hne : x ≠ c := fun he => h (he ▸ List.mem_cons_self x xs)
    unfold lastIdxOf
    rw [ih hx, if_neg hne]

lemma runEnds_stopped (evs : List Bool) (s : AppState)
    (h1 : s.shouldListen = false) (h2 : s.isListening = false) :
    runEnds evs s = (s, 0) := by
  induction evs with
  | nil => rfl
  | cons b bs ih =>
    have hstate : onEnd b s = s := by
      unfold onEnd
      rw [if_neg (by simp [h1])]
      cases s
      simp_all
    unfold runEnds
    rw [hstate, ih]
    simp [onEndStarts, h1]

lemma runEnds_active (evs : List Bool) (s : AppState)
    (h1 : s.shouldListen = true) (hall : ∀ b ∈ evs, b = false) :
    runEnds evs s = (s, evs.length) := by
  induction evs with
  | nil => rfl
  | cons b bs ih =>
    have hb : b = false := hall b (List.mem_cons_self _ _)
    subst hb
    have hstate : onEnd false s = s := by
      unfold onEnd
      rw [if_pos (by simp [h1])]
      simp
    unfold runEnds
    rw [hstate, ih (fun x hx => hall x (List.mem_cons_of_mem _ hx))]
    simp [onEndStarts, h1, Nat.add_comm]

lemma sessionAudioInv_init : SessionAudioInv initState := by
  refine ⟨?_, ?_, ?_, ?_⟩ <;> intro h <;> simp [initState] at h

lemma sessionAudioInv_step (s : AppState) (e : Ev) (h : SessionAudioInv s) :
    SessionAudioInv (step s e) := by
  obtain ⟨doc, sl, il, au, pa⟩ := s
  unfold SessionAudioInv at h ⊢
  cases e <;>
    simp only [step, toggleListening, handlePlay, handleStopAudio, onEnd, onError,
      onProgress, onComplete, handleKeyboardPress, handleEdit, handleClear] <;>
    cases sl <;> cases il <;> cases pa <;> cases au <;>
    (try split_ifs) <;> simp_all

lemma reachable_inv {s : AppState} (h : Reachable s) : SessionAudioInv s := by
  induction h with
  | init => exact sessionAudioInv_init
  | next e _ ih => exact sessionAudioInv_step _ e ih

lemma wordDeleteBoundary_lt {t : List Char} {p : Nat}
    (hp : 0 < p) : wordDeleteBoundary t p < p := by
  unfold wordDeleteBoundary
  cases h : lastIdxOf ' ' (trimEnd (t.take p)) with
  | none => exact hp
  | some i =>
    show i + 1 < p
    obtain ⟨hi, hget⟩ := lastIdxOf_spec h
    have hlen : (trimEnd (t.take p)).length ≤ p := by
      calc (trimEnd (t.take p)).length ≤ (t.take p).length := length_trimEnd_le _
        _ = min p t.length := List.length_take _ _
        _ ≤ p := Nat.min_le_left _ _
    rcases Nat.lt_or_ge (i + 1) (trimEnd (t.take p)).length with hlt | hge
    · omega
    · exfalso
      have hieq : i = (trimEnd (t.take p)).length - 1 := by omega
      have hlast : (trimEnd (t.take p)).getLast? = some ' ' := by
        rw [List.getLast?_eq_getElem?, ← hieq]
        exact hget
      have := getLast?_trimEnd_not_ws hlast
      simp [jsWhitespace] at this

/-! ### Claim theorems -/

/-- C3 counterexample: on the valid document with text "ab" and active
selection 0..1, inserting "x" replaces the selected character, so the new
length is 2, not `2 + 1` as the claim states for every valid document. -/
theorem C3_counterexample :
    Document.Valid { text := "ab".toList, selectionStart := 0, selectionEnd := 1 } ∧
    ¬ (insertTextAtCursor { text := "ab".toList, selectionStart := 0, selectionEnd := 1 }
        "x".toList).text.length = ("ab".toList).length + ("x".toList).length := by
  decide

/-- C3 (amended): for every valid document, `insertTextAtCursor` replaces
the range `selectionStart..selectionEnd` by the inserted string, the new
length is the old length minus the replaced-range length plus the inserted
length (hence old length plus inserted length whenever the caret is
collapsed), and the caret is collapsed at `selectionStart + length(s)`. -/
theorem C3_insert_at_cursor (d : Document) (s : List Char) (hv : d.Valid) :
    (insertTextAtCursor d s).text =
      d.text.take d.selectionStart ++ s ++ d.text.drop d.selectionEnd
    ∧ (insertTextAtCursor d s).text.length =
        d.text.length - (d.selectionEnd - d.selectionStart) + s.length
    ∧ (insertTextAtCursor d s).selectionStart = d.selectionStart + s.length
    ∧ (insertTextAtCursor d s).selectionEnd = d.selectionStart + s.length
    ∧ (d.selectionStart = d.selectionEnd →
        (insertTextAtCursor d s).text.length = d.text.length + s.length) := by
  obtain ⟨h1, h2⟩ := hv
  refine ⟨rfl, ?_, rfl, rfl, ?_⟩
  · simp only [insertTextAtCursor, List.length_append, List.length_take,
      List.length_drop]
    omega
  · intro hc
    simp only [insertTextAtCursor, List.length_append, List.length_take,
      List.length_drop]
    omega

/-- C3 witness: the amended theorem at the document "Hola", selection 1..3,
inserting "xyz". -/
theorem C3_insert_at_cursor_witness :
    (insertTextAtCursor { text := "Hola".toList, selectionStart := 1, selectionEnd := 3 }
        "xyz".toList).text =
      ("Hola".toList).take 1 ++ "xyz".toList ++ ("Hola".toList).drop 3
    ∧ (insertTextAtCursor { text := "Hola".toList, selectionStart := 1, selectionEnd := 3 }
        "xyz".toList).text.length = ("Hola".toList).length - (3 - 1) + ("xyz".toList).length
    ∧ (insertTextAtCursor { text := "Hola".toList, selectionStart := 1, selectionEnd := 3 }
        "xyz".toList).selectionStart = 1 + ("xyz".toList).length
    ∧ (insertTextAtCursor { text := "Hola".toList, selectionStart := 1, selectionEnd := 3 }
        "xyz".toList).selectionEnd = 1 + ("xyz".toList).length
    ∧ ((1 : Nat) = 3 →
        (insertTextAtCursor { text := "Hola".toList, selectionStart := 1, selectionEnd := 3 }
          "xyz".toList).text.length = ("Hola".toList).length + ("xyz".toList).length) :=
  C3_insert_at_cursor
    { text := "Hola".toList, selectionStart := 1, selectionEnd := 3 }
    "xyz".toList (by decide)

/-- C4: a single space separator is produced exactly when the current text
is non-empty, does not end in whitespace, and the trimmed processed chunk
does not begin with one of `. , ; : ! ?`; in particular the chunk "mundo"
after "Hola" (caret at the end) yields "Hola mundo", and the chunk "."
after "Hola" yields "Hola." with no injected space. -/
theorem C4_separator :
    (∀ currentText processedChunk : List Char,
        (computeSeparator currentText processedChunk = [' '] ↔
          currentText ≠ [] ∧ endsWithWhitespace currentText = false ∧
            startsWithNoSpacePunct (jsTrim processedChunk) = false)
        ∧ (computeSeparator currentText processedChunk = [' '] ∨
            computeSeparator currentText processedChunk = []))
    ∧ insertChunk { text := "Hola".toList, selectionStart := 4, selectionEnd := 4 }
        ("mundo".toList) =
      { text := "Hola mundo".toList, selectionStart := 10, selectionEnd := 10 }
    ∧ insertChunk { text := "Hola".toList, selectionStart := 4, selectionEnd := 4 }
        (".".toList) =
      { text := "Hola.".toList, selectionStart := 5, selectionEnd := 5 } := by
  refine ⟨fun currentText processedChunk => ?_, by decide, by decide⟩
  unfold computeSeparator
  by_cases h : currentText.length > 0 ∧ ¬endsWithWhitespace currentText ∧
      ¬startsWithNoSpacePunct (jsTrim processedChunk)
  · rw [if_pos h]
    obtain ⟨ha, hb, hc⟩ := h
    refine ⟨⟨fun _ => ?_, fun _ => rfl⟩, Or.inl rfl⟩
    refine ⟨?_, by simpa using hb, by simpa using hc⟩
    intro he
    rw [he] at ha
    simp at ha
  · rw [if_neg h]
    refine ⟨⟨fun hcontra => by simp at hcontra, fun ⟨ha, hb, hc⟩ => ?_⟩, Or.inr rfl⟩
    exfalso
    refine h ⟨?_, by simp [hb], by simp [hc]⟩
    cases hl : currentText with
    | nil => exact absurd hl ha
    | cons x xs => simp [hl]

/-- C7: for every fraction in `[0,1]` and every text length, the playback
mapper equals `clamp(floor(textLength * fraction), 0, textLength)` and its
result is a well-defined index in `[0, textLength]`; the spec's three
sample points evaluate as stated, with no division involved. -/
theorem C7_map_progress :
    (∀ (f : ℚ) (n : ℕ), 0 ≤ f → f ≤ 1 →
        mapProgress f n = max 0 (min ⌊(n : ℚ) * f⌋ (n : ℤ))
        ∧ 0 ≤ mapProgress f n ∧ mapProgress f n ≤ (n : ℤ))
    ∧ mapProgress (1 / 2) 10 = 5
    ∧ mapProgress 1 10 = 10
    ∧ mapProgress 0 0 = 0 := by
  refine ⟨fun f n hf0 hf1 => ?_, ?_, ?_, ?_⟩
  · have hfl : (0 : ℤ) ≤ ⌊(n : ℚ) * f⌋ := by
      rw [Int.floor_nonneg]
      positivity
    have hmin : (0 : ℤ) ≤ min ⌊(n : ℚ) * f⌋ (n : ℤ) :=
      le_min hfl (Int.ofNat_nonneg n)
    exact ⟨(max_eq_right hmin).symm, hmin, min_le_right _ _⟩
  · show min ⌊(10 : ℚ) * (1 / 2)⌋ (10 : ℤ) = 5
    norm_num
  · show min ⌊(10 : ℚ) * 1⌋ (10 : ℤ) = 10
    norm_num
  · show min ⌊(0 : ℚ) * 0⌋ (0 : ℤ) = 0
    norm_num

/-- C7 witness: the universal part of the mapper theorem at fraction `1/2`
and length 10. -/
theorem C7_map_progress_witness :
    mapProgress (1 / 2) 10 = max 0 (min ⌊(10 : ℚ) * (1 / 2)⌋ (10 : ℤ))
    ∧ 0 ≤ mapProgress (1 / 2) 10 ∧ mapProgress (1 / 2) 10 ≤ (10 : ℤ) :=
  C7_map_progress.1 (1 / 2) 10 (by norm_num) (by norm_num)

/-- C8: the permission / service-denial error kinds clear the intent and
force the session to Stopped without touching anything else and without
waiting for `end`; every other error kind leaves the whole state
untouched. -/
theorem C8_error_policy :
    ∀ (s : AppState) (kind : String),
      ((kind = "not-allowed" ∨ kind = "service-not-allowed") →
        (onError kind s).shouldListen = false ∧ (onError kind s).isListening = false ∧
        (onError kind s).audioState = s.audioState ∧
        (onError kind s).playbackActive = s.playbackActive ∧
        (onError kind s).doc = s.doc)
      ∧ (¬(kind = "not-allowed" ∨ kind = "service-not-allowed") →
        onError kind s = s) := by
  intro s kind
  constructor
  · intro h
    simp [onError, if_pos h]
  · intro h
    simp [onError, if_neg h]

/-- C8 witness: the error policy at the initial state with intent set, for
the fatal kind "not-allowed" and the transient kind "no-speech". -/
theorem C8_error_policy_witness :
    ((onError "not-allowed"
        { initState with shouldListen := true, isListening := true }).shouldListen = false ∧
      (onError "not-allowed"
        { initState with shouldListen := true, isListening := true }).isListening = false ∧
      (onError "not-allowed"
        { initState with shouldListen := true, isListening := true }).audioState =
        ({ initState with shouldListen := true, isListening := true } : AppState).audioState ∧
      (onError "not-allowed"
        { initState with shouldListen := true, isListening := true }).playbackActive =
        ({ initState with shouldListen := true, isListening := true } : AppState).playbackActive ∧
      (onError "not-allowed"
        { initState with shouldListen := true, isListening := true }).doc =
        ({ initState with shouldListen := true, isListening := true } : AppState).doc)
    ∧ onError "no-speech" { initState with shouldListen := true, isListening := true } =
        { initState with shouldListen := true, isListening := true } :=
  ⟨(C8_error_policy { initState with shouldListen := true, isListening := true }
      "not-allowed").1 (Or.inl rfl),
    (C8_error_policy { initState with shouldListen := true, isListening := true }
      "no-speech").2 (by decide)⟩

/-- C6: WORD-mode deletion at a collapsed caret `p > 0` removes exactly the
characters between the boundary `lastIndexOf(' ') + 1` of the
whitespace-trimmed prefix before the caret (0 when no space occurs) and the
caret, and leaves the caret collapsed at that boundary; the single-character
fallback never has to fire because the computed count is provably nonzero.
Concretely, "hello world" with caret 11 becomes "hello " with caret 6. -/
theorem C6_word_delete :
    (∀ (d : Document) (p : Nat), d.Valid →
        d.selectionStart = p → d.selectionEnd = p → 0 < p →
        deleteAtCursor d .word =
          { text := d.text.take (wordDeleteBoundary d.text p) ++ d.text.drop p
            selectionStart := wordDeleteBoundary d.text p
            selectionEnd := wordDeleteBoundary d.text p })
    ∧ deleteAtCursor
        { text := "hello world".toList, selectionStart := 11, selectionEnd := 11 } .word =
      { text := "hello ".toList, selectionStart := 6, selectionEnd := 6 } := by
  refine ⟨fun d p _hv hs he hp => ?_, by decide⟩
  have hb : wordDeleteBoundary d.text p < p := wordDeleteBoundary_lt hp
  have hdc : ¬(p - wordDeleteBoundary d.text p = 0) := by omega
  unfold deleteAtCursor
  rw [hs, he, if_neg (show ¬(p ≠ p) by simp), if_neg (show ¬(p = 0) by omega)]
  unfold wordDeleteBoundary at *
  rw [if_neg hdc]
  simp only [Nat.sub_sub_self (Nat.le_of_lt hb)]

/-- C6 witness: the universal part at the document "hello world" with
collapsed caret 11, where the boundary is 6. -/
theorem C6_word_delete_witness :
    deleteAtCursor
        { text := "hello world".toList, selectionStart := 11, selectionEnd := 11 } .word =
      { text := ("hello world".toList).take
          (wordDeleteBoundary ("hello world".toList) 11) ++ ("hello world".toList).drop 11
        selectionStart := wordDeleteBoundary ("hello world".toList) 11
        selectionEnd := wordDeleteBoundary ("hello world".toList) 11 } :=
  C6_word_delete.1
    { text := "hello world".toList, selectionStart := 11, selectionEnd := 11 } 11
    (by decide) rfl rfl (by decide)

/-- C10: the WORD-mode boundary search only recognizes the ASCII space: if
the whitespace-trimmed prefix before a collapsed caret `p > 0` contains a
newline or tab but no space, one word-delete removes everything back to
position 0, crossing the line break. -/
theorem C10_word_delete_ascii_space :
    (∀ (d : Document) (p : Nat), d.Valid →
        d.selectionStart = p → d.selectionEnd = p → 0 < p →
        ' ' ∉ trimEnd (d.text.take p) →
        ('\n' ∈ trimEnd (d.text.take p) ∨ '\t' ∈ trimEnd (d.text.take p)) →
        deleteAtCursor d .word =
          { text := d.text.drop p, selectionStart := 0, selectionEnd := 0 })
    ∧ deleteAtCursor
        { text := "ab\ncd".toList, selectionStart := 5, selectionEnd := 5 } .word =
      { text := [], selectionStart := 0, selectionEnd := 0 } := by
  refine ⟨fun d p _hv hs he hp hnospace _hbreak => ?_, by decide⟩
  have hnone : lastIdxOf ' ' (trimEnd (d.text.take p)) = none :=
    lastIdxOf_eq_none hnospace
  have hbd : wordDeleteBoundary d.text p = 0 := by
    unfold wordDeleteBoundary
    rw [hnone]
  have hdc : ¬(p - wordDeleteBoundary d.text p = 0) := by omega
  unfold deleteAtCursor
  rw [hs, he, if_neg (show ¬(p ≠ p) by simp), if_neg (show ¬(p = 0) by omega)]
  unfold wordDeleteBoundary at hdc hbd
  rw [if_neg hdc, hnone]
  simp

/-- C10 witness: the universal part at the document "ab", a line break and
"cd", with the caret at the end: one word-delete erases all five
characters. -/
theorem C10_word_delete_ascii_space_witness :
    deleteAtCursor
        { text := "ab\ncd".toList, selectionStart := 5, selectionEnd := 5 } .word =
      { text := ("ab\ncd".toList).drop 5, selectionStart := 0, selectionEnd := 0 } :=
  C10_word_delete_ascii_space.1
    { text := "ab\ncd".toList, selectionStart := 5, selectionEnd := 5 } 5
    (by decide) rfl rfl (by decide) (by decide) (by decide)

/-- C2 counterexample: the batch with raw transcript " " (one space) after
document "Hola" normalizes to the empty clean chunk, yet the handler does
not skip it: it inserts the separator space, changing the text to
"Hola ". -/
theorem C2_counterexample :
    processTextChunk [' '] ("Hola".toList) .es = []
    ∧ ([' '] : List Char) ≠ []
    ∧ (onResult { text := "Hola".toList, selectionStart := 4, selectionEnd := 4 }
        [' '] .es).text = "Hola ".toList
    ∧ (onResult { text := "Hola".toList, selectionStart := 4, selectionEnd := 4 }
        [' '] .es).text ≠ "Hola".toList := by
  decide

/-- C2 (amended): the handler skips exactly the batches whose raw
concatenated transcript is empty.  A non-empty raw batch whose normalized
clean chunk is empty contributes no chunk text, but it still inserts the
single separator space whenever the document text is non-empty and does not
end in whitespace; with a collapsed caret the text is unchanged in the
remaining cases. -/
theorem C2_empty_chunk (d : Document) (chunk : List Char) (lang : Language)
    (hcol : d.selectionStart = d.selectionEnd) (hle : d.selectionEnd ≤ d.text.length)
    (hempty : processTextChunk chunk d.text lang = []) :
    (chunk = [] → onResult d chunk lang = d)
    ∧ (chunk ≠ [] → d.text ≠ [] → endsWithWhitespace d.text = false →
        (onResult d chunk lang).text =
          d.text.take d.selectionStart ++ ' ' :: d.text.drop d.selectionStart
        ∧ (onResult d chunk lang).text ≠ d.text)
    ∧ (chunk ≠ [] → (d.text = [] ∨ endsWithWhitespace d.text = true) →
        (onResult d chunk lang).text = d.text) := by
  refine ⟨fun h => by simp [onResult, h], fun hc hne hws => ?_, fun hc hcase => ?_⟩
  · have hsep : computeSeparator d.text [] = [' '] := by
      unfold computeSeparator
      rw [if_pos]
      refine ⟨?_, by simp [hws], by simp [startsWithNoSpacePunct, jsTrim, trimEnd]⟩
      cases hl : d.text with
      | nil => exact absurd hl hne
      | cons x xs => simp [hl]
    have htext : (onResult d chunk lang).text =
        d.text.take d.selectionStart ++ ' ' :: d.text.drop d.selectionStart := by
      unfold onResult
      rw [if_neg hc, hempty]
      simp only [insertChunk, insertTextAtCursor, jsTrim, trimEnd, List.dropWhile_nil,
        List.reverse_nil, hsep, List.append_nil, List.append_assoc,
        List.singleton_append, ← hcol]
    refine ⟨htext, fun heq => ?_⟩
    have hlen := congrArg List.length heq
    rw [htext] at hlen
    simp only [List.length_append, List.length_take, List.length_cons,
      List.length_drop] at hlen
    have hsle : d.selectionStart ≤ d.text.length := hcol ▸ hle
    omega
  · have hsep : computeSeparator d.text [] = [] := by
      unfold computeSeparator
      rw [if_neg]
      intro hcond
      rcases hcase with hnil | hwst
      · rw [hnil] at hcond
        simp at hcond
      · exact hcond.2.1 hwst
    unfold onResult
    rw [if_neg hc, hempty]
    simp only [insertChunk, insertTextAtCursor, jsTrim, trimEnd, List.dropWhile_nil,
      List.reverse_nil, hsep, List.append_nil, List.nil_append, ← hcol]
    exact List.take_append_drop _ _

/-- C5: on a valid document with a non-collapsed selection, `toggleCase`
replaces the selected text by its case rotation (all-lower to TitleCase,
TitleCase to all-upper, otherwise all-lower) and leaves the selection
covering the full replaced range; starting from "cat" with the caret inside
the word, three consecutive toggles produce "Cat", "CAT" and "cat" again. -/
theorem C5_toggle_case :
    (∀ d : Document, d.Valid → d.selectionStart < d.selectionEnd →
        toggleCase d =
          { text := d.text.take d.selectionStart ++
              rotateCase ((d.text.drop d.selectionStart).take
                (d.selectionEnd - d.selectionStart)) ++ d.text.drop d.selectionEnd
            selectionStart := d.selectionStart
            selectionEnd := d.selectionStart +
              (rotateCase ((d.text.drop d.selectionStart).take
                (d.selectionEnd - d.selectionStart))).length })
    ∧ toggleCase { text := "cat".toList, selectionStart := 1, selectionEnd := 1 } =
        { text := "Cat".toList, selectionStart := 0, selectionEnd := 3 }
    ∧ toggleCase { text := "Cat".toList, selectionStart := 0, selectionEnd := 3 } =
        { text := "CAT".toList, selectionStart := 0, selectionEnd := 3 }
    ∧ toggleCase { text := "CAT".toList, selectionStart := 0, selectionEnd := 3 } =
        { text := "cat".toList, selectionStart := 0, selectionEnd := 3 }
    ∧ rotateCase ("cat".toList) = "Cat".toList
    ∧ rotateCase ("Cat".toList) = "CAT".toList
    ∧ rotateCase ("CAT".toList) = "cat".toList := by
  refine ⟨fun d hv hlt => ?_, by decide, by decide, by decide, by decide, by decide,
    by decide⟩
  have hne : d.selectionStart ≠ d.selectionEnd := Nat.ne_of_lt hlt
  have hlen : ((d.text.drop d.selectionStart).take
      (d.selectionEnd - d.selectionStart)).length = d.selectionEnd - d.selectionStart := by
    rw [List.length_take, List.length_drop]
    have := hv.2
    omega
  have hsel : (d.text.drop d.selectionStart).take (d.selectionEnd - d.selectionStart) ≠ [] := by
    intro h
    rw [h] at hlen
    simp at hlen
    omega
  unfold toggleCase rotateCase
  simp only [if_neg hne, if_neg hsel]

/-- C5 witness: the universal part at the document "Cat" with the full word
selected, where the rotation yields "CAT". -/
theorem C5_toggle_case_witness :
    toggleCase { text := "Cat".toList, selectionStart := 0, selectionEnd := 3 } =
      { text := ("Cat".toList).take 0 ++
          rotateCase ((("Cat".toList).drop 0).take (3 - 0)) ++ ("Cat".toList).drop 3
        selectionStart := 0
        selectionEnd := 0 + (rotateCase ((("Cat".toList).drop 0).take (3 - 0))).length } :=
  C5_toggle_case.1 { text := "Cat".toList, selectionStart := 0, selectionEnd := 3 }
    (by decide) (by decide)

/-- C2 witness: the amended theorem at document "Hola" with caret 4 and the
whitespace-only raw chunk, where the stray separator space is inserted. -/
theorem C2_empty_chunk_witness :
    (onResult { text := "Hola".toList, selectionStart := 4, selectionEnd := 4 }
        [' '] .es).text =
      ("Hola".toList).take 4 ++ ' ' :: ("Hola".toList).drop 4
    ∧ (onResult { text := "Hola".toList, selectionStart := 4, selectionEnd := 4 }
        [' '] .es).text ≠ "Hola".toList :=
  (C2_empty_chunk { text := "Hola".toList, selectionStart := 4, selectionEnd := 4 }
      [' '] .es rfl (by decide) (by decide)).2.1
    (by decide) (by decide) (by decide)

/-- C1: while the intent flag stays set, every engine `end` event invokes
`start()` exactly once and leaves the Active state untouched; an `end` whose
restart call throws clears the intent, stops the session, and no later `end`
event invokes `start()` or changes the stopped state again; an `end` that
arrives without intent only clears the listening flag and invokes no
start. -/
theorem C1_restart_policy :
    (∀ (s : AppState) (evs : List Bool),
        s.shouldListen = true → s.isListening = true → (∀ b ∈ evs, b = false) →
        runEnds evs s = (s, evs.length))
    ∧ (∀ s : AppState, s.shouldListen = true →
        (onEnd true s).shouldListen = false ∧ (onEnd true s).isListening = false ∧
        ∀ evs : List Bool,
          (runEnds evs (onEnd true s)).2 = 0 ∧
          (runEnds evs (onEnd true s)).1.shouldListen = false ∧
          (runEnds evs (onEnd true s)).1.isListening = false)
    ∧ (∀ (s : AppState) (b : Bool), s.shouldListen = false →
        onEnd b s = { s with isListening := false } ∧ onEndStarts s = false) := by
  refine ⟨fun s evs h1 _h2 hall => runEnds_active evs s h1 hall,
    fun s h1 => ?_, fun s b h1 => ?_⟩
  · have hstop : onEnd true s =
        { s with isListening := false, shouldListen := false } := by
      unfold onEnd
      rw [if_pos (by simp [h1])]
      simp
    have hrun := fun evs => runEnds_stopped evs (onEnd true s)
      (by rw [hstop]) (by rw [hstop])
    refine ⟨by rw [hstop], by rw [hstop], fun evs => ?_⟩
    rw [hrun evs, hstop]
    exact ⟨rfl, rfl, rfl⟩
  · constructor
    · unfold onEnd
      rw [if_neg (by simp [h1])]
    · simpa [onEndStarts] using h1

/-- C1 witness: the restart policy at a listening state with two successful
`end` events, at a throwing restart followed by one further `end`, and at a
stopped state receiving an `end`. -/
theorem C1_restart_policy_witness :
    runEnds [false, false] { initState with shouldListen := true, isListening := true } =
      ({ initState with shouldListen := true, isListening := true }, 2)
    ∧ ((onEnd true { initState with shouldListen := true, isListening := true }).shouldListen
        = false
      ∧ (onEnd true { initState with shouldListen := true, isListening := true }).isListening
        = false
      ∧ ((runEnds [true]
          (onEnd true { initState with shouldListen := true, isListening := true })).2 = 0
        ∧ (runEnds [true]
            (onEnd true
              { initState with shouldListen := true, isListening := true })).1.shouldListen
          = false
        ∧ (runEnds [true]
            (onEnd true
              { initState with shouldListen := true, isListening := true })).1.isListening
          = false))
    ∧ (onEnd true initState = { initState with isListening := false }
      ∧ onEndStarts initState = false) :=
  ⟨C1_restart_policy.1 { initState with shouldListen := true, isListening := true }
      [false, false] rfl rfl (by decide),
    (fun h => ⟨h.1, h.2.1, h.2.2 [true]⟩)
      (C1_restart_policy.2.1 { initState with shouldListen := true, isListening := true } rfl),
    C1_restart_policy.2.2 initState true rfl⟩

/-- C9: starting playback on a reachable state with non-blank text stops
listening; starting listening from a reachable non-intent state leaves the
audio idle with no surviving playback session; a virtual-keyboard press or a
direct text-field edit always stops playback; consequently no reachable
state is simultaneously listening (Active) and playing. -/
theorem C9_mutual_exclusion :
    (∀ s : AppState, Reachable s → jsTrim s.doc.text ≠ [] →
        (handlePlay s).shouldListen = false ∧ (handlePlay s).isListening = false)
    ∧ (∀ s : AppState, Reachable s → s.shouldListen = false →
        (toggleListening false s).audioState = .idle ∧
        (toggleListening false s).playbackActive = false)
    ∧ (∀ (s : AppState) (k : KeyAction), (handleKeyboardPress k s).audioState = .idle)
    ∧ (∀ (s : AppState) (d : Document), (handleEdit d s).audioState = .idle)
    ∧ (∀ s : AppState, Reachable s →
        ¬(s.isListening = true ∧ s.audioState = .playing)) := by
  refine ⟨fun s hr hne => ?_, fun s hr h1 => ?_, fun s k => ?_, fun s d => ?_,
    fun s hr ⟨hil, hau⟩ => ?_⟩
  · obtain ⟨_, _, h3, _⟩ := reachable_inv hr
    obtain ⟨doc, sl, il, au, pa⟩ := s
    cases sl <;> cases il <;>
      simp_all [handlePlay, toggleListening, handleStopAudio]
  · obtain ⟨_, _, _, h4⟩ := reachable_inv hr
    obtain ⟨doc, sl, il, au, pa⟩ := s
    simp only at h1
    subst h1
    cases pa <;> cases au <;>
      simp_all [toggleListening, handleStopAudio]
  · obtain ⟨doc, sl, il, au, pa⟩ := s
    cases au <;> simp [handleKeyboardPress, handleStopAudio]
  · obtain ⟨doc, sl, il, au, pa⟩ := s
    cases au <;> simp [handleEdit, handleStopAudio]
  · obtain ⟨h1, h2, _, _⟩ := reachable_inv hr
    have hpa := h2 hau
    exact absurd hil (by simp [(h1 hpa).2])

/-- C9 witness: the mutual-exclusion theorem at concrete reachable states:
the state reached by editing "a" into the document and toggling listening
on, and the initial state. -/
theorem C9_mutual_exclusion_witness :
    ((handlePlay (step (step initState
          (.edit { text := "a".toList, selectionStart := 1, selectionEnd := 1 }))
          (.toggle false))).shouldListen = false
      ∧ (handlePlay (step (step initState
          (.edit { text := "a".toList, selectionStart := 1, selectionEnd := 1 }))
          (.toggle false))).isListening = false)
    ∧ ((toggleListening false initState).audioState = .idle
      ∧ (toggleListening false initState).playbackActive = false)
    ∧ (handleKeyboardPress .backspace initState).audioState = .idle
    ∧ (handleEdit { text := [], selectionStart := 0, selectionEnd := 0 }
        initState).audioState = .idle
    ∧ ¬(initState.isListening = true ∧ initState.audioState = .playing) :=
  ⟨C9_mutual_exclusion.1 _
      (Reachable.next (.toggle false)
        (Reachable.next
          (.edit { text := "a".toList, selectionStart := 1, selectionEnd := 1 })
          Reachable.init))
      (by decide),
    C9_mutual_exclusion.2.1 initState Reachable.init rfl,
    C9_mutual_exclusion.2.2.1 initState .backspace,
    C9_mutual_exclusion.2.2.2.1 initState
      { text := [], selectionStart := 0, selectionEnd := 0 },
    C9_mutual_exclusion.2.2.2.2 initState Reachable.init⟩

end Dictado
